import Mathlib

/-!
Verification development for the meeting-notes markdown parser
(`note_parser.py`, with the authoring-form serializer from `notes.py`).

The Python code drives everything through the `re` module.  Every regular
expression in the source uses only: literals, single-character classes,
greedy/lazy repetition of single-character classes, the anchors `^`, `$`
(both in MULTILINE mode), `\Z`, one or two capture groups, alternation
(only in terminal position), and lookahead.  We therefore embed a small
backtracking matcher over exactly this fragment, with Python's leftmost
match / backtracking-priority semantics, and transcribe each pattern of
the source into its AST.  Character classes are modelled on the ASCII
range (plus the common Unicode whitespace code points Python's `\s`
accepts); the inputs the claims speak about are ASCII.

Python exceptions reachable from the parser (`IndexError` from
`m.group(1)` on a groupless pattern and from `parts[0]` on an empty
list) are modelled by the `PResult` error monad.
-/

/-- Python `\s` for `str` patterns (also the set stripped by `str.strip`):
ASCII whitespace, the information separators, and the common Unicode
space code points. -/
def pyWs (c : Char) : Bool :=
  c = ' ' || c = '\t' || c = '\n' || c = '\r' || c = '\x0b' || c = '\x0c' ||
  c = '\x1c' || c = '\x1d' || c = '\x1e' || c = '\x1f' || c = '\x85' ||
  c = '\xa0' || c = ' ' ||
  (' ' ≤ c && c ≤ ' ') || c = ' ' || c = ' ' ||
  c = ' ' || c = ' ' || c = '　'

/-- Python `\d` (modelled on ASCII digits). -/
def pyDigit (c : Char) : Bool := '0' ≤ c && c ≤ '9'

/-- The literal class `[A-Za-z0-9]`. -/
def asciiAlnum (c : Char) : Bool :=
  ('A' ≤ c && c ≤ 'Z') || ('a' ≤ c && c ≤ 'z') || ('0' ≤ c && c ≤ '9')

/-- Regex `.` without DOTALL: any character except a newline. -/
def dotNoNL (c : Char) : Bool := c ≠ '\n'

/-- Regex `.` under DOTALL: any character. -/
def anyChar (_ : Char) : Bool := true

/-- The class `[-*]` of bullet markers. -/
def dashStar (c : Char) : Bool := c = '-' || c = '*'

/-- The class `[ \t]`. -/
def spaceTab (c : Char) : Bool := c = ' ' || c = '\t'

/-- The class `[:\-]`. -/
def colonDash (c : Char) : Bool := c = ':' || c = '-'

/-- The class `[,;]`. -/
def commaSemi (c : Char) : Bool := c = ',' || c = ';'

/-- Atomic items of the embedded regex fragment.  Repetition only ever
applies to a single-character class in the source's patterns, which is
what makes the backtracking matchers below structurally terminating. -/
inductive RxAtom where
  | lit (s : List Char) (ci : Bool)
  | cls (c : Char → Bool)
  | rep (c : Char → Bool) (lo : Nat) (hi : Option Nat) (greedy : Bool)
  | bol
  | eol
  | eos

/-- Items allowed inside an alternation branch or a lookahead: atoms,
plus one further level of lookahead / alternation over atoms (the nesting
depth the source's patterns actually use). -/
inductive RxBr where
  | atom (a : RxAtom)
  | look (sub : List RxAtom)
  | alt (branches : List (List RxAtom))

/-- Top-level items: atoms, capture-group markers, lookahead and
alternation.  In every pattern of the source, alternations and lookaheads
are terminal (nothing after them backtracks into them), which the layered
matcher relies on. -/
inductive RxItem where
  | atom (a : RxAtom)
  | gopen
  | gclose
  | look (sub : List RxBr)
  | alt (branches : List (List RxBr))

/-- Case-insensitive (ASCII `re.IGNORECASE`) or exact literal match at a
position. -/
def litMatchesAt (t : List Char) (s : List Char) (ci : Bool) (pos : Nat) : Bool :=
  match s with
  | [] => true
  | c :: cs =>
    match t[pos]? with
    | some d => (if ci then c.toLower = d.toLower else c = d) && litMatchesAt t cs ci (pos + 1)
    | none => false

/-- Length of the longest run of characters satisfying `c` at the head of
a list. -/
def countLeading (c : Char → Bool) : List Char → Nat
  | [] => 0
  | d :: ds => if c d then countLeading c ds + 1 else 0

/-- The repetition counts a greedy (descending) or lazy (ascending)
quantifier tries, in backtracking-priority order. -/
def repCounts (lo m : Nat) (greedy : Bool) : List Nat :=
  if greedy then (List.range' lo (m + 1 - lo)).reverse else List.range' lo (m + 1 - lo)

/-- MULTILINE `^`: start of text or just after a newline. -/
def atLineStart (t : List Char) (pos : Nat) : Bool :=
  pos = 0 || t[pos - 1]? = some '\n'

/-- MULTILINE `$`: end of text or just before a newline. -/
def atLineEnd (t : List Char) (pos : Nat) : Bool :=
  pos = t.length || t[pos]? = some '\n'

/-- The bound on repetition counts at a position: the longest run of
class characters there, capped by the quantifier's upper bound. -/
def repBound (t : List Char) (c : Char → Bool) (hi : Option Nat) (pos : Nat) : Nat :=
  min (countLeading c (t.drop pos)) (hi.getD (countLeading c (t.drop pos)))

/-- Backtracking matcher for atom sequences, with Python's priority
semantics: the first repetition count in priority order whose
continuation succeeds wins.  Returns the end position of the match. -/
def matchAtoms (t : List Char) : List RxAtom → Nat → Option Nat
  | [], pos => some pos
  | .lit s ci :: rest, pos =>
    if litMatchesAt t s ci pos then matchAtoms t rest (pos + s.length) else none
  | .cls c :: rest, pos =>
    match t[pos]? with
    | some d => if c d then matchAtoms t rest (pos + 1) else none
    | none => none
  | .rep c lo hi greedy :: rest, pos =>
    (repCounts lo (repBound t c hi pos) greedy).findSome? fun k => matchAtoms t rest (pos + k)
  | .bol :: rest, pos => if atLineStart t pos then matchAtoms t rest pos else none
  | .eol :: rest, pos => if atLineEnd t pos then matchAtoms t rest pos else none
  | .eos :: rest, pos => if pos = t.length then matchAtoms t rest pos else none

/-- Backtracking matcher for branch items (atoms plus terminal lookahead
and alternation over atoms). -/
def matchBranch (t : List Char) : List RxBr → Nat → Option Nat
  | [], pos => some pos
  | .atom (.lit s ci) :: rest, pos =>
    if litMatchesAt t s ci pos then matchBranch t rest (pos + s.length) else none
  | .atom (.cls c) :: rest, pos =>
    match t[pos]? with
    | some d => if c d then matchBranch t rest (pos + 1) else none
    | none => none
  | .atom (.rep c lo hi greedy) :: rest, pos =>
    (repCounts lo (repBound t c hi pos) greedy).findSome? fun k => matchBranch t rest (pos + k)
  | .atom .bol :: rest, pos => if atLineStart t pos then matchBranch t rest pos else none
  | .atom .eol :: rest, pos => if atLineEnd t pos then matchBranch t rest pos else none
  | .atom .eos :: rest, pos => if pos = t.length then matchBranch t rest pos else none
  | .look sub :: rest, pos =>
    match matchAtoms t sub pos with
    | some _ => matchBranch t rest pos
    | none => none
  | .alt bs :: rest, pos =>
    bs.findSome? fun b =>
      match matchAtoms t b pos with
      | some e => matchBranch t rest e
      | none => none

/-- Backtracking matcher for top-level items.  `stk` holds the start
positions of currently open groups, `done` the completed `(start, stop)`
spans in closing order.  Returns the end position of the match and the
completed group spans. -/
def matchTop (t : List Char) :
    List RxItem → Nat → List Nat → List (Nat × Nat) → Option (Nat × List (Nat × Nat))
  | [], pos, _, done => some (pos, done)
  | .atom (.lit s ci) :: rest, pos, stk, done =>
    if litMatchesAt t s ci pos then matchTop t rest (pos + s.length) stk done else none
  | .atom (.cls c) :: rest, pos, stk, done =>
    match t[pos]? with
    | some d => if c d then matchTop t rest (pos + 1) stk done else none
    | none => none
  | .atom (.rep c lo hi greedy) :: rest, pos, stk, done =>
    (repCounts lo (repBound t c hi pos) greedy).findSome? fun k =>
      matchTop t rest (pos + k) stk done
  | .atom .bol :: rest, pos, stk, done =>
    if atLineStart t pos then matchTop t rest pos stk done else none
  | .atom .eol :: rest, pos, stk, done =>
    if atLineEnd t pos then matchTop t rest pos stk done else none
  | .atom .eos :: rest, pos, stk, done =>
    if pos = t.length then matchTop t rest pos stk done else none
  | .gopen :: rest, pos, stk, done => matchTop t rest pos (pos :: stk) done
  | .gclose :: rest, pos, stk, done =>
    match stk with
    | s :: stk' => matchTop t rest pos stk' (done ++ [(s, pos)])
    | [] => none
  | .look sub :: rest, pos, stk, done =>
    match matchBranch t sub pos with
    | some _ => matchTop t rest pos stk done
    | none => none
  | .alt bs :: rest, pos, stk, done =>
    bs.findSome? fun b =>
      match matchBranch t b pos with
      | some e => matchTop t rest e stk done
      | none => none

/-- Leftmost search: Python `re.search` scanning start positions from
`start` upward (inclusive of the end-of-text position). -/
def searchFrom (t : List Char) (items : List RxItem) (start : Nat) :
    Option (Nat × Nat × List (Nat × Nat)) :=
  (List.range' start (t.length + 1 - start)).findSome? fun p =>
    (matchTop t items p [] []).map fun r => (p, r.1, r.2)

/-- A pattern: its item list together with the number of capture groups
of the compiled regex (Python raises `IndexError: no such group` when
`group(1)` is asked of a pattern compiled with zero groups). -/
structure RPattern where
  items : List RxItem
  groupCount : Nat

/-- Python `re.search` over a string. -/
def reSearch (p : RPattern) (s : String) : Option (Nat × Nat × List (Nat × Nat)) :=
  searchFrom s.data p.items 0

/-- Python `re.match`: anchored at position 0 only. -/
def reMatchAt0 (p : RPattern) (s : String) : Option (Nat × List (Nat × Nat)) :=
  matchTop s.data p.items 0 [] []

/-- Substring of a string by character positions. -/
def strSub (s : String) (a b : Nat) : String :=
  ⟨(s.data.drop a).take (b - a)⟩

/-- Python `re.finditer`: repeated leftmost search, resuming at the end of
each (non-empty) match; `fuel` bounds the number of matches and
`t.length + 1` always suffices because positions strictly increase. -/
def finditerAux (t : List Char) (items : List RxItem) :
    Nat → Nat → List (Nat × Nat × List (Nat × Nat))
  | 0, _ => []
  | fuel + 1, pos =>
    match searchFrom t items pos with
    | none => []
    | some (s, e, g) => (s, e, g) :: finditerAux t items fuel (max e (s + 1))

/-- All matches of a pattern in a string, in positional order. -/
def finditerStr (p : RPattern) (s : String) : List (Nat × Nat × List (Nat × Nat)) :=
  finditerAux s.data p.items (s.data.length + 1) 0

/-- Python `re.findall` for a single-group pattern: the list of the
capture's contents over all matches. -/
def findallGroup1 (p : RPattern) (s : String) : List String :=
  (finditerStr p s).map fun m => match m.2.2.head? with
    | some g => strSub s g.1 g.2
    | none => ""

/-- Python `re.split(pat, s, maxsplit=1)` for a groupless pattern. -/
def splitOnceStr (p : RPattern) (s : String) : List String :=
  match reSearch p s with
  | none => [s]
  | some (a, b, _) => [strSub s 0 a, strSub s b (s.data.length)]

/-- Pieces of a string between consecutive match spans. -/
def splitPieces (s : String) (start : Nat) :
    List (Nat × Nat × List (Nat × Nat)) → List String
  | [] => [strSub s start (s.data.length)]
  | (a, b, _) :: rest => strSub s start a :: splitPieces s b rest

/-- Python `re.split(pat, s)` (unlimited) for a groupless pattern: the
pieces between consecutive matches. -/
def splitAllStr (p : RPattern) (s : String) : List String :=
  splitPieces s 0 (finditerStr p s)

/-- Python `str.strip()`. -/
def pyStrip (s : String) : String :=
  ⟨((s.data.dropWhile pyWs).reverse.dropWhile pyWs).reverse⟩

/-- The line-break set of Python `str.splitlines` (besides `\r\n`). -/
def pyLineBreak (c : Char) : Bool :=
  c = '\n' || c = '\r' || c = '\x0b' || c = '\x0c' ||
  c = '\x1c' || c = '\x1d' || c = '\x1e' || c = '\x85' ||
  c = ' ' || c = ' '

/-- Python `str.splitlines()` (no trailing empty line for a terminal
break; `\r\n` counts as one break). -/
def pySplitlinesAux : List Char → List Char → List String
  | [], acc => if acc = [] then [] else [⟨acc.reverse⟩]
  | '\r' :: '\n' :: rest, acc => ⟨acc.reverse⟩ :: pySplitlinesAux rest []
  | c :: rest, acc =>
    if pyLineBreak c then ⟨acc.reverse⟩ :: pySplitlinesAux rest []
    else pySplitlinesAux rest (c :: acc)

/-- Python `str.splitlines()`. -/
def pySplitlines (s : String) : List String := pySplitlinesAux s.data []

/-- Python `"\n".join(xs)`. -/
def joinNL : List String → String
  | [] => ""
  | [x] => x
  | x :: rest => x ++ "\n" ++ joinNL rest

/-- Python `", ".join(xs)`. -/
def joinCommaSpace : List String → String
  | [] => ""
  | [x] => x
  | x :: rest => x ++ ", " ++ joinCommaSpace rest

/-- Position of the last occurrence of a character in a list, mirroring
Python's `str.rfind`. -/
def lastIndexOfAux (c : Char) : List Char → Nat → Option Nat
  | [], _ => none
  | d :: ds, i =>
    match lastIndexOfAux c ds (i + 1) with
    | some j => some j
    | none => if d = c then some i else none

/-- Position of the last occurrence of a character, if any. -/
def lastIndexOf (c : Char) (l : List Char) : Option Nat := lastIndexOfAux c l 0

/-- Index just past the last `/` of a path (0 when there is none),
mirroring `posixpath`'s `p.rfind('/') + 1`. -/
def lastSlashSucc (p : String) : Nat :=
  match lastIndexOf '/' p.data with
  | some i => i + 1
  | none => 0

/-- Python `os.path.basename` (POSIX). -/
def pyBasename (p : String) : String :=
  ⟨p.data.drop (lastSlashSucc p)⟩

/-- Python `os.path.dirname` (POSIX): everything up to the last slash,
with trailing slashes stripped unless the result is all slashes. -/
def pyDirname (p : String) : String :=
  let head := p.data.take (lastSlashSucc p)
  if head = [] then ""
  else if head.all (· = '/') then ⟨head⟩
  else ⟨(head.reverse.dropWhile (· = '/')).reverse⟩

/-- Python `os.path.splitext(basename)[0]` for a string with no slash:
split at the last dot unless every character before it is a dot. -/
def stripExt (b : String) : String :=
  match lastIndexOf '.' b.data with
  | none => b
  | some i => if (b.data.take i).all (· = '.') then b else ⟨b.data.take i⟩

/-- Result of a Python computation that may raise. -/
inductive PResult (α : Type) where
  | ok (val : α) : PResult α
  | error (msg : String) : PResult α
  deriving DecidableEq, Repr

/-! ### The patterns of `note_parser.py`, transcribed item by item -/

/-- The section-splitting pattern
`^##\s+Meeting Title\s*:|^##\s+(?=[A-Za-z0-9].*)` (MULTILINE, compiled at
`note_parser.py` line 127); only the existence of a match is consumed by
the source (`len(sections) <= 1`). -/
def splitPat : RPattern :=
  ⟨[.alt [
    [.atom .bol, .atom (.lit "##".data false), .atom (.rep pyWs 1 none true),
     .atom (.lit "Meeting Title".data false), .atom (.rep pyWs 0 none true),
     .atom (.lit ":".data false)],
    [.atom .bol, .atom (.lit "##".data false), .atom (.rep pyWs 1 none true),
     .look [.cls asciiAlnum, .rep dotNoNL 0 none true]]]], 0⟩

/-- The multi-section iteration pattern
`^##\s+(?P<title>.+)\s*$\n(?P<body>.*?)(?=^##\s+|\Z)` with
DOTALL and MULTILINE (`note_parser.py` line 152).  Under DOTALL the `.` of
the title group matches newlines as well. -/
def sectionPat : RPattern :=
  ⟨[.atom .bol, .atom (.lit ['#', '#'] false), .atom (.rep pyWs 1 none true),
    .gopen, .atom (.rep anyChar 1 none true), .gclose,
    .atom (.rep pyWs 0 none true), .atom .eol, .atom (.lit ['\n'] false),
    .gopen, .atom (.rep anyChar 0 none false), .gclose,
    .look [.alt [[.bol, .lit ['#', '#'] false, .rep pyWs 1 none true], [.eos]]]], 2⟩

/-- Single-meeting title pattern 1: `^#\s*(.+)` (IGNORECASE, MULTILINE). -/
def titlePat1 : RPattern :=
  ⟨[.atom .bol, .atom (.lit "#".data true), .atom (.rep pyWs 0 none true),
    .gopen, .atom (.rep dotNoNL 1 none true), .gclose], 1⟩

/-- Single-meeting title pattern 2: `##\s*Meeting Title\s*:?` — compiled
with zero capture groups, so a successful search makes `m.group(1)` raise
`IndexError: no such group` in `_safe_extract_field`. -/
def titlePat2 : RPattern :=
  ⟨[.atom (.lit "##".data true), .atom (.rep pyWs 0 none true),
    .atom (.lit "Meeting Title".data true), .atom (.rep pyWs 0 none true),
    .atom (.rep (fun c => c = ':') 0 (some 1) true)], 0⟩

/-- Date pattern `\*\*Date\*\*\s*[:\-]?\s*(.+)` (IGNORECASE, MULTILINE). -/
def boldDatePat : RPattern :=
  ⟨[.atom (.lit "**Date**".data true), .atom (.rep pyWs 0 none true),
    .atom (.rep colonDash 0 (some 1) true), .atom (.rep pyWs 0 none true),
    .gopen, .atom (.rep dotNoNL 1 none true), .gclose], 1⟩

/-- Date pattern `Date\s*[:\-]?\s*(.+)` (IGNORECASE, MULTILINE). -/
def bareDatePat : RPattern :=
  ⟨[.atom (.lit "Date".data true), .atom (.rep pyWs 0 none true),
    .atom (.rep colonDash 0 (some 1) true), .atom (.rep pyWs 0 none true),
    .gopen, .atom (.rep dotNoNL 1 none true), .gclose], 1⟩

/-- Date pattern `(\d{4}-\d{2}-\d{2})`. -/
def isoDatePat : RPattern :=
  ⟨[.gopen, .atom (.rep pyDigit 4 (some 4) true), .atom (.lit "-".data true),
    .atom (.rep pyDigit 2 (some 2) true), .atom (.lit "-".data true),
    .atom (.rep pyDigit 2 (some 2) true), .gclose], 1⟩

/-- Attendees pattern `\*\*Attendees\*\*\s*[:\-]?\s*(.+)` (IGNORECASE, MULTILINE). -/
def boldAttendeesPat : RPattern :=
  ⟨[.atom (.lit "**Attendees**".data true), .atom (.rep pyWs 0 none true),
    .atom (.rep colonDash 0 (some 1) true), .atom (.rep pyWs 0 none true),
    .gopen, .atom (.rep dotNoNL 1 none true), .gclose], 1⟩

/-- Attendees pattern `Attendees\s*[:\-]?\s*(.+)` (IGNORECASE, MULTILINE). -/
def bareAttendeesPat : RPattern :=
  ⟨[.atom (.lit "Attendees".data true), .atom (.rep pyWs 0 none true),
    .atom (.rep colonDash 0 (some 1) true), .atom (.rep pyWs 0 none true),
    .gopen, .atom (.rep dotNoNL 1 none true), .gclose], 1⟩

/-- `_BULLET_RE = ^[ \t]*[-*]\s+(.*)`, used both with `re.match` on single
lines and with `re.findall(..., MULTILINE)` on the whole text. -/
def bulletPat : RPattern :=
  ⟨[.atom .bol, .atom (.rep spaceTab 0 none true), .atom (.cls dashStar),
    .atom (.rep pyWs 1 none true), .gopen, .atom (.rep dotNoNL 0 none true), .gclose], 1⟩

/-- The block scanner's stop test `re.match(r"^#{1,6}\s+", line)`. -/
def headerStopPat : RPattern :=
  ⟨[.atom .bol, .atom (.rep (fun c => c = '#') 1 (some 6) true),
    .atom (.rep pyWs 1 none true)], 0⟩

/-- Header pattern of `_extract_bulleted_block` built by the f-string
`rf"^#{2,4}\s*{label}\s*:?[ \t]*$"`: the `{2,4}` is a *format replacement
field*, not a regex quantifier, and evaluates to the tuple `(2, 4)`, so
the compiled regex is `^#(2, 4)\s*LABEL\s*:?[ \t]*$` — a literal `#`
followed by a capture group matching the literal text `2, 4`. -/
def hdrExactPat (label : String) : RPattern :=
  ⟨[.atom .bol, .atom (.lit "#".data true), .gopen, .atom (.lit "2, 4".data true), .gclose,
    .atom (.rep pyWs 0 none true), .atom (.lit label.data true),
    .atom (.rep pyWs 0 none true), .atom (.rep (fun c => c = ':') 0 (some 1) true),
    .atom (.rep spaceTab 0 none true), .atom .eol], 1⟩

/-- Looser header pattern `rf"^#{2,4}.*{label}.*$"`, with the same
f-string replacement: `^#(2, 4).*LABEL.*$`. -/
def hdrLoosePat (label : String) : RPattern :=
  ⟨[.atom .bol, .atom (.lit "#".data true), .gopen, .atom (.lit "2, 4".data true), .gclose,
    .atom (.rep dotNoNL 0 none true), .atom (.lit label.data true),
    .atom (.rep dotNoNL 0 none true), .atom .eol], 1⟩

/-- Checkbox fallback pattern `^[-*]\s*\[.?\]\s*(.+)$` (IGNORECASE,
MULTILINE). -/
def checkboxPat : RPattern :=
  ⟨[.atom .bol, .atom (.cls dashStar), .atom (.rep pyWs 0 none true),
    .atom (.lit "[".data true), .atom (.rep dotNoNL 0 (some 1) true),
    .atom (.lit "]".data true), .atom (.rep pyWs 0 none true),
    .gopen, .atom (.rep dotNoNL 1 none true), .gclose, .atom .eol], 1⟩

/-- Action-item delimiter pattern `\||\(Due:|_?Due:?\s` used with
`re.split(..., maxsplit=1)` and no flags (case-sensitive). -/
def delimPat : RPattern :=
  ⟨[.alt [
    [.atom (.lit "|".data false)],
    [.atom (.lit "(Due:".data false)],
    [.atom (.rep (fun c => c = '_') 0 (some 1) true), .atom (.lit "Due".data false),
     .atom (.rep (fun c => c = ':') 0 (some 1) true), .atom (.cls pyWs)]]], 0⟩

/-- Attendee separator pattern `[,;]\s*` used with unlimited `re.split`. -/
def attendeeSplitPat : RPattern :=
  ⟨[.atom (.cls commaSemi), .atom (.rep pyWs 0 none true)], 0⟩

/-! ### The parser of `note_parser.py` -/

/-- One extracted action item. -/
structure ActionItem where
  task : String
  dueDate : String
  deriving DecidableEq, Repr

/-- One parsed meeting record (a `langchain` `Document`: its
`page_content` and the metadata fields the parser fills in). -/
structure MeetingDoc where
  content : String
  file_id : String
  path : String
  source : String
  title : String
  date : String
  attendees : List String
  topic : String
  deriving DecidableEq, Repr

/-- MD5 hex digest, modelled as an injective tagging of its input string
(the claims settled here do not depend on actual digest values, only on
which string is hashed). -/
def md5hex (s : String) : String := "md5:" ++ s

/-- `_file_mtime_hash`: id from `path:mtime`, or from the path alone when
`os.stat` fails (the caller-supplied `mt` is the `str(stat.st_mtime)` of
the file, absent when stat raises). -/
def fileMtimeHash (path : String) (mt : Option String) : String :=
  match mt with
  | some m => md5hex (path ++ ":" ++ m)
  | none => md5hex path

/-- The stripped contents of a match's first capture group (Python's
`(m.group(1) or "").strip()`, for a group that participated). -/
def cap1 (text : String) (m : Nat × Nat × List (Nat × Nat)) : String :=
  match m.2.2.head? with
  | some sp => pyStrip (strSub text sp.1 sp.2)
  | none => ""

/-- `_safe_extract_field`: first pattern whose search succeeds wins; its
first capture is stripped and returned; a groupless pattern makes
`m.group(1)` raise. -/
def extractFieldPR (text : String) : List RPattern → PResult String
  | [] => .ok ""
  | p :: rest =>
    match reSearch p text with
    | some m =>
      if p.groupCount = 0 then .error "no such group" else .ok (cap1 text m)
    | none => extractFieldPR text rest

/-- The line scan of `_extract_bulleted_block`: a heading line stops the
block, a bullet line contributes its stripped content, a blank line is
skipped, any other line stops the block. -/
def collectBullets : List String → List String
  | [] => []
  | line :: rest =>
    if (reMatchAt0 headerStopPat line).isSome then []
    else
      match reMatchAt0 bulletPat line with
      | some m =>
        (match m.2.head? with
         | some sp => pyStrip (strSub line sp.1 sp.2)
         | none => "") :: collectBullets rest
      | none => if pyStrip line = "" then collectBullets rest else []

/-- `_extract_bulleted_block`: for each label try the exact then the loose
header pattern; on a match collect the bullet lines after the match's end
and return them newline-joined if non-empty, else try the next label. -/
def extractBulletedBlock (text : String) : List String → String
  | [] => ""
  | label :: rest =>
    match
      (match reSearch (hdrExactPat label) text with
       | some m => some m
       | none => reSearch (hdrLoosePat label) text) with
    | some m =>
      let lines := collectBullets (pySplitlines (strSub text m.2.1 text.data.length))
      if lines = [] then extractBulletedBlock text rest else joinNL lines
    | none => extractBulletedBlock text rest

/-- The per-candidate step of `_extract_action_items`: strip, skip blanks,
split once on the first delimiter, keep the non-blank stripped parts;
`parts[0]` raises `IndexError` when every part is blank. -/
def normalizeCandidate (line : String) : PResult (Option ActionItem) :=
  let raw := pyStrip line
  if raw = "" then .ok none
  else
    let parts := ((splitOnceStr delimPat raw).filter fun p => pyStrip p ≠ "").map pyStrip
    match parts with
    | [] => .error "list index out of range"
    | task :: more => .ok (some ⟨task, more.head?.getD ""⟩)

/-- The candidate loop of `_extract_action_items` (a raised `IndexError`
aborts the whole extraction, as in Python). -/
def actionItemsGo : List String → PResult (List ActionItem)
  | [] => .ok []
  | line :: rest =>
    match normalizeCandidate line with
    | .error e => .error e
    | .ok none => actionItemsGo rest
    | .ok (some it) =>
      match actionItemsGo rest with
      | .error e => .error e
      | .ok its => .ok (it :: its)

/-- `_extract_action_items`: bulleted block under an Action-Items header,
else all checkbox bullets of the text; then normalize each candidate. -/
def extractActionItems (text : String) : PResult (List ActionItem) :=
  let block := extractBulletedBlock text ["Action Items", "Actions", "Action"]
  let candidates := if block = "" then findallGroup1 checkboxPat text else pySplitlines block
  actionItemsGo candidates

/-- True when the section-splitting pattern matches somewhere, i.e. when
`split_pat.split(raw)` yields more than one piece and the parser takes
the multi-section path. -/
def hasSectionHeading (raw : String) : Bool := (reSearch splitPat raw).isSome

/-- All matches of the multi-section pattern, in positional order. -/
def sectionMatches (raw : String) : List (Nat × Nat × List (Nat × Nat)) :=
  finditerStr sectionPat raw

/-- The composed `page_content` shared by both branches. -/
def renderContent (title : String) (attendees : List String) (notesPart : String) : String :=
  "Meeting Title: " ++ title ++ "\n\nAttendees:\n" ++
  (if attendees = [] then "(none)" else joinNL attendees) ++ "\n\nNotes:\n" ++ notesPart

/-- The stripped `title` group of one multi-section match. -/
def sectionTitleOf (raw : String) (m : Nat × Nat × List (Nat × Nat)) : String :=
  pyStrip (strSub raw (m.2.2.head?.getD (0, 0)).1 (m.2.2.head?.getD (0, 0)).2)

/-- The stripped `body` group of one multi-section match. -/
def sectionBodyOf (raw : String) (m : Nat × Nat × List (Nat × Nat)) : String :=
  pyStrip (strSub raw ((m.2.2.drop 1).head?.getD (0, 0)).1 ((m.2.2.drop 1).head?.getD (0, 0)).2)

/-- The body of the multi-section loop for one match: field extraction,
the empty-section guard, and record assembly. -/
def buildSection (path raw : String) (m : Nat × Nat × List (Nat × Nat)) :
    PResult (Option MeetingDoc) :=
  let title := sectionTitleOf raw m
  let body := sectionBodyOf raw m
  match extractFieldPR body [boldAttendeesPat, bareAttendeesPat] with
  | .error e => .error e
  | .ok araw =>
    let attendees := ((splitAllStr attendeeSplitPat araw).map pyStrip).filter fun a => a ≠ ""
    let notes := extractBulletedBlock body ["Notes", "Topics"]
    match extractActionItems body with
    | .error e => .error e
    | .ok actions =>
      match extractFieldPR body [boldDatePat, bareDatePat, isoDatePat] with
      | .error e => .error e
      | .ok d0 =>
        match (if d0 = "" then extractFieldPR title [isoDatePat] else .ok d0) with
        | .error e => .error e
        | .ok date =>
          if notes = "" ∧ actions = [] then .ok none
          else
            .ok (some
              ⟨renderContent title attendees notes,
               md5hex (path ++ ":" ++ title ++ ":" ++ date),
               path, pyBasename path, title, date, attendees,
               pyBasename (pyDirname path)⟩)

/-- The multi-section loop: a raised exception aborts the whole parse. -/
def multiGo (path raw : String) : List (Nat × Nat × List (Nat × Nat)) → PResult (List MeetingDoc)
  | [] => .ok []
  | m :: ms =>
    match buildSection path raw m with
    | .error e => .error e
    | .ok none => multiGo path raw ms
    | .ok (some d) =>
      match multiGo path raw ms with
      | .error e => .error e
      | .ok ds => .ok (d :: ds)

/-- The notes of the single-meeting fallback: the bulleted block under a
Notes/Topics header, or (if empty) all bullet captures of the whole text,
newline-joined. -/
def singleNotes (raw : String) : String :=
  let notes0 := extractBulletedBlock raw ["Notes", "Topics"]
  if notes0 = "" then joinNL (findallGroup1 bulletPat raw) else notes0

/-- The single-meeting fallback branch of `parse_multiple_notes`. -/
def singleDoc (path raw : String) (mt : Option String) : PResult (List MeetingDoc) :=
  match extractFieldPR raw [titlePat1, titlePat2] with
  | .error e => .error e
  | .ok t0 =>
    let title := if t0 = "" then stripExt (pyBasename path) else t0
    match extractFieldPR raw [boldDatePat, bareDatePat, isoDatePat] with
    | .error e => .error e
    | .ok d0 =>
      match (if d0 = "" then extractFieldPR path [isoDatePat] else .ok d0) with
      | .error e => .error e
      | .ok date =>
        match extractFieldPR raw [boldAttendeesPat, bareAttendeesPat] with
        | .error e => .error e
        | .ok araw =>
          let attendees := ((splitAllStr attendeeSplitPat araw).map pyStrip).filter fun a => a ≠ ""
          let notes := singleNotes raw
          match extractActionItems raw with
          | .error e => .error e
          | .ok _actions =>
            let notesPart := if notes = "" then pyStrip raw else notes
            .ok [⟨renderContent title attendees notesPart,
                  fileMtimeHash path mt,
                  path, pyBasename path, title, date, attendees,
                  pyBasename (pyDirname path)⟩]

/-- `parse_multiple_notes` on in-memory text: the multi-section path when
the splitting pattern matches, else the single-meeting fallback.  `mt` is
the `str(st_mtime)` the caller's `os.stat` would report (`none` when stat
raises). -/
def parseText (path raw : String) (mt : Option String) : PResult (List MeetingDoc) :=
  if hasSectionHeading raw then multiGo path raw (sectionMatches raw)
  else singleDoc path raw mt

/-- The file-system facts `parse_multiple_notes` consults: `os.path.exists`,
the `open`/`read`/decode outcome (`none` models a raised `OSError` or
`UnicodeDecodeError`), and `os.stat`'s mtime. -/
structure FileSys where
  pathExists : String → Bool
  readFile : String → Option String
  mtimeStr : String → Option String

/-- `parse_multiple_notes(path)` including its file-reading boundary:
a missing path and an unreadable file both return the empty list. -/
def parseMultipleNotes (fs : FileSys) (path : String) : PResult (List MeetingDoc) :=
  if fs.pathExists path then
    match fs.readFile path with
    | some raw => parseText path raw (fs.mtimeStr path)
    | none => .ok []
  else .ok []

/-! ### The authoring form's serializer (`notes.py`, `MeetingForm`) -/

/-- The note structure the authoring form composes (the validated fields
of `get_note_data`). -/
structure NoteData where
  meetingTitle : String
  date : String
  attendees : List String
  notes : String
  actionItems : List ActionItem
  deriving DecidableEq, Repr

/-- One serialized action-item line of `_compose_markdown`. -/
def actionLine (it : ActionItem) : String :=
  let task := pyStrip it.task
  let due := pyStrip it.dueDate
  "- [ ] " ++ task ++ (if due = "" then "" else " _(Due: " ++ due ++ ")_")

/-- `MeetingForm._compose_markdown`. -/
def composeMarkdown (d : NoteData) : String :=
  joinNL
    (["# " ++ d.meetingTitle,
      "**Date:** " ++ d.date,
      "**Attendees:** " ++ joinCommaSpace d.attendees,
      "",
      "## Notes\n" ++ d.notes] ++
      (if d.actionItems = [] then [] else "\n## Action Items" :: d.actionItems.map actionLine))

/-! ### Claim C1: the end-to-end scenario -/

/-- The spec's end-to-end scenario input. -/
def c1Input : String :=
  "## Team Sync\n**Date:** 2025-03-01\n**Attendees:** Alice, Bob\n### Notes\n- Discussed roadmap\n- Reviewed budget\n## Action Items\n- [ ] Send follow-up (Due: 2025-03-05)"

set_option maxRecDepth 100000 in
/-- Claim C1 states the scenario yields one record with title
`Team Sync`, date `2025-03-01`, attendees `[Alice, Bob]`, notes
`Discussed roadmap\nReviewed budget` and the single action item
`(Send follow-up, 2025-03-05)`.  The code actually emits one record
whose title is everything from the first heading to the last newline
(the DOTALL flag on the section pattern lets the title group span
newlines), with no attendees, empty notes, and — had the action items
been kept — a due date retaining the trailing `)`.  This theorem
evaluates the parser on the exact scenario input. -/
theorem c1_scenario_actual_output :
    parseText "notes/meeting.md" c1Input (some "1741000000.0") =
      .ok [{ content := "Meeting Title: Team Sync\n**Date:** 2025-03-01\n**Attendees:** Alice, Bob\n### Notes\n- Discussed roadmap\n- Reviewed budget\n## Action Items\n\nAttendees:\n(none)\n\nNotes:\n",
             file_id := "md5:notes/meeting.md:Team Sync\n**Date:** 2025-03-01\n**Attendees:** Alice, Bob\n### Notes\n- Discussed roadmap\n- Reviewed budget\n## Action Items:2025-03-05",
             path := "notes/meeting.md",
             source := "meeting.md",
             title := "Team Sync\n**Date:** 2025-03-01\n**Attendees:** Alice, Bob\n### Notes\n- Discussed roadmap\n- Reviewed budget\n## Action Items",
             date := "2025-03-05",
             attendees := [],
             topic := "notes" }] ∧
    extractActionItems "- [ ] Send follow-up (Due: 2025-03-05)" =
      .ok [⟨"Send follow-up", "2025-03-05)"⟩] := by
  decide

/-! ### Claim C2: the parser can raise on malformed input -/

set_option maxRecDepth 100000 in
/-- Claim C2 states `parse_multiple_notes` never raises, for any input.
It does raise: an inline (non-line-anchored) `## Meeting Title` with no
other heading makes `_safe_extract_field` call `m.group(1)` on the
groupless second title pattern (`IndexError: no such group`), and a
checkbox bullet whose content is a lone delimiter makes
`_extract_action_items` evaluate `parts[0]` on an empty list
(`IndexError: list index out of range`).  This theorem evaluates the
parser on both crashing inputs from the claim. -/
theorem c2_crash_on_malformed_input :
    parseText "a/b.md" "blah ## Meeting Title blah" none = .error "no such group" ∧
    parseText "a/b.md" "- [ ] |" none = .error "list index out of range" := by
  decide

/-! ### Claim C3: serialize-then-parse round trip -/

/-- A note exactly as the authoring form accepts it: non-empty trimmed
attendees and a trimmed non-empty task with a due date. -/
def c3Note : NoteData :=
  ⟨"Team Sync", "2025-03-01", ["Alice", "Bob"], "hello", [⟨"Do", "2025-03-06"⟩]⟩

set_option maxRecDepth 100000 in
/-- Claim C3 states that parsing `_compose_markdown`'s output recovers
the same title, date, attendee list and action items.  It does not: the
`## Notes` heading sends the parser into multi-section mode, where the
DOTALL title bug swallows the notes and the Action-Items heading into
the title, the date is taken from the due date inside the body, the
attendee line is lost (it sits inside the swallowed title, and the
parsed record's attendee extraction runs on the body only), and parsed
records do not carry action items at all.  This theorem evaluates the
round trip on a concrete note. -/
theorem c3_roundtrip_failure :
    composeMarkdown c3Note =
      "# Team Sync\n**Date:** 2025-03-01\n**Attendees:** Alice, Bob\n\n## Notes\nhello\n\n## Action Items\n- [ ] Do _(Due: 2025-03-06)_" ∧
    parseText "meeting_notes/meeting_2025-03-01_Team_Sync.md" (composeMarkdown c3Note) none =
      .ok [{ content := "Meeting Title: Notes\nhello\n\n## Action Items\n\nAttendees:\n(none)\n\nNotes:\n",
             file_id := "md5:meeting_notes/meeting_2025-03-01_Team_Sync.md:Notes\nhello\n\n## Action Items:2025-03-06",
             path := "meeting_notes/meeting_2025-03-01_Team_Sync.md",
             source := "meeting_2025-03-01_Team_Sync.md",
             title := "Notes\nhello\n\n## Action Items",
             date := "2025-03-06",
             attendees := [],
             topic := "meeting_notes" }] ∧
    ("Notes\nhello\n\n## Action Items" = c3Note.meetingTitle) = False ∧
    ("2025-03-06" = c3Note.date) = False ∧
    (([] : List String) = c3Note.attendees) = False := by
  decide

/-! ### Claim C6: action-item delimiter priority -/

set_option maxRecDepth 10000 in
/-- Claim C6: on the candidate line
`Fix bug | 2025-09-01 (Due: 2025-09-02)` the normalizer splits only at
the earliest delimiter (the pipe), giving task `Fix bug` and the whole
remainder `2025-09-01 (Due: 2025-09-02)` as one trimmed due-date string;
the same holds through `_extract_action_items` on the corresponding
checkbox bullet. -/
theorem c6_delimiter_priority :
    normalizeCandidate "Fix bug | 2025-09-01 (Due: 2025-09-02)" =
      .ok (some ⟨"Fix bug", "2025-09-01 (Due: 2025-09-02)"⟩) ∧
    extractActionItems "- [ ] Fix bug | 2025-09-01 (Due: 2025-09-02)" =
      .ok [⟨"Fix bug", "2025-09-01 (Due: 2025-09-02)"⟩] := by
  decide

/-! ### Claim C7: two-section drop rule -/

/-- A two-section input: a section with a Notes block with bullets, and a
section with an empty body. -/
def c7Input : String := "## Alpha\n## Notes\n- a\n- b\n## Beta\n"

set_option maxRecDepth 100000 in
/-- Claim C7 states that exactly one record (the one with the bulleted
Notes block) is emitted for `c7Input`.  The code emits zero records: the
DOTALL title bug makes the single section match swallow everything up to
the last newline, leaving an empty body, and the f-string bug in
`_extract_bulleted_block`'s header patterns (`#{2,4}` is a format field,
not a quantifier) means no Notes block is ever found, so the only
candidate record is dropped by the empty-section guard.  This theorem
evaluates the parser on the input. -/
theorem c7_two_section_actual_output :
    hasSectionHeading c7Input = true ∧ parseText "t/x.md" c7Input none = .ok [] := by
  decide

/-! ### Claim C9: missing and unreadable files -/

/-- Claim C9: for a path that does not exist, or whose contents cannot be
opened or decoded, `parse_multiple_notes` returns the empty list and
raises nothing. -/
theorem c9_missing_or_unreadable (fs : FileSys) (path : String)
    (h : fs.pathExists path = false ∨ fs.readFile path = none) :
    parseMultipleNotes fs path = .ok [] := by
  unfold parseMultipleNotes
  rcases h with h | h
  · simp [h]
  · cases hx : fs.pathExists path <;> simp [h, hx]

/-- A file system with no files at all. -/
def emptyFS : FileSys := ⟨fun _ => false, fun _ => none, fun _ => none⟩

/-- Witness for C9 at a concrete file system and path. -/
theorem c9_missing_or_unreadable_witness :
    (emptyFS.pathExists "notes/a.md" = false ∨ emptyFS.readFile "notes/a.md" = none) ∧
    parseMultipleNotes emptyFS "notes/a.md" = .ok [] :=
  ⟨Or.inl rfl, c9_missing_or_unreadable emptyFS "notes/a.md" (Or.inl rfl)⟩

/-! ### Generic matcher lemmas -/

/-- A successful atom-sequence match never moves the position backwards. -/
theorem matchAtoms_mono (t : List Char) :
    ∀ (items : List RxAtom) (pos e : Nat), matchAtoms t items pos = some e → pos ≤ e := by
  intro items
  induction items with
  | nil => intro pos e h; simp only [matchAtoms, Option.some.injEq] at h; omega
  | cons a rest ih =>
    intro pos e h
    cases a with
    | lit s ci =>
      simp only [matchAtoms] at h
      split at h
      · exact Nat.le_trans (Nat.le_add_right _ _) (ih _ _ h)
      · simp at h
    | cls c =>
      simp only [matchAtoms] at h
      split at h
      · split at h
        · exact Nat.le_trans (Nat.le_succ pos) (ih _ _ h)
        · simp at h
      · simp at h
    | rep c lo hi greedy =>
      simp only [matchAtoms] at h
      obtain ⟨k, _, hh⟩ := List.exists_of_findSome?_eq_some h
      exact Nat.le_trans (Nat.le_add_right _ _) (ih _ _ hh)
    | bol =>
      simp only [matchAtoms] at h
      split at h
      · exact ih _ _ h
      · simp at h
    | eol =>
      simp only [matchAtoms] at h
      split at h
      · exact ih _ _ h
      · simp at h
    | eos =>
      simp only [matchAtoms] at h
      split at h
      · exact ih _ _ h
      · simp at h

/-- A successful branch-sequence match never moves the position backwards. -/
theorem matchBranch_mono (t : List Char) :
    ∀ (items : List RxBr) (pos e : Nat), matchBranch t items pos = some e → pos ≤ e := by
  intro items
  induction items with
  | nil => intro pos e h; simp only [matchBranch, Option.some.injEq] at h; omega
  | cons a rest ih =>
    intro pos e h
    cases a with
    | atom a0 =>
      cases a0 with
      | lit s ci =>
        simp only [matchBranch] at h
        split at h
        · exact Nat.le_trans (Nat.le_add_right _ _) (ih _ _ h)
        · simp at h
      | cls c =>
        simp only [matchBranch] at h
        split at h
        · split at h
          · exact Nat.le_trans (Nat.le_succ pos) (ih _ _ h)
          · simp at h
        · simp at h
      | rep c lo hi greedy =>
        simp only [matchBranch] at h
        obtain ⟨k, _, hh⟩ := List.exists_of_findSome?_eq_some h
        exact Nat.le_trans (Nat.le_add_right _ _) (ih _ _ hh)
      | bol =>
        simp only [matchBranch] at h
        split at h
        · exact ih _ _ h
        · simp at h
      | eol =>
        simp only [matchBranch] at h
        split at h
        · exact ih _ _ h
        · simp at h
      | eos =>
        simp only [matchBranch] at h
        split at h
        · exact ih _ _ h
        · simp at h
    | look sub =>
      simp only [matchBranch] at h
      split at h
      · exact ih _ _ h
      · simp at h
    | alt bs =>
      simp only [matchBranch] at h
      obtain ⟨b, _, hh⟩ := List.exists_of_findSome?_eq_some h
      split at hh
      · rename_i e1 hm
        exact Nat.le_trans (matchAtoms_mono t b pos e1 hm) (ih _ _ hh)
      · simp at hh

/-- A successful top-level match never moves the position backwards. -/
theorem matchTop_mono (t : List Char) :
    ∀ (items : List RxItem) (pos : Nat) (stk : List Nat) (done : List (Nat × Nat))
      (e : Nat) (g : List (Nat × Nat)),
      matchTop t items pos stk done = some (e, g) → pos ≤ e := by
  intro items
  induction items with
  | nil =>
    intro pos stk done e g h
    simp only [matchTop, Option.some.injEq, Prod.mk.injEq] at h
    omega
  | cons a rest ih =>
    intro pos stk done e g h
    cases a with
    | atom a0 =>
      cases a0 with
      | lit s ci =>
        simp only [matchTop] at h
        split at h
        · exact Nat.le_trans (Nat.le_add_right _ _) (ih _ _ _ _ _ h)
        · simp at h
      | cls c =>
        simp only [matchTop] at h
        split at h
        · split at h
          · exact Nat.le_trans (Nat.le_succ pos) (ih _ _ _ _ _ h)
          · simp at h
        · simp at h
      | rep c lo hi greedy =>
        simp only [matchTop] at h
        obtain ⟨k, _, hh⟩ := List.exists_of_findSome?_eq_some h
        exact Nat.le_trans (Nat.le_add_right _ _) (ih _ _ _ _ _ hh)
      | bol =>
        simp only [matchTop] at h
        split at h
        · exact ih _ _ _ _ _ h
        · simp at h
      | eol =>
        simp only [matchTop] at h
        split at h
        · exact ih _ _ _ _ _ h
        · simp at h
      | eos =>
        simp only [matchTop] at h
        split at h
        · exact ih _ _ _ _ _ h
        · simp at h
    | gopen =>
      simp only [matchTop] at h
      exact ih _ _ _ _ _ h
    | gclose =>
      simp only [matchTop] at h
      split at h
      · exact ih _ _ _ _ _ h
      · simp at h
    | look sub =>
      simp only [matchTop] at h
      split at h
      · exact ih _ _ _ _ _ h
      · simp at h
    | alt bs =>
      simp only [matchTop] at h
      obtain ⟨b, _, hh⟩ := List.exists_of_findSome?_eq_some h
      split at hh
      · rename_i e1 hm
        exact Nat.le_trans (matchBranch_mono t b pos e1 hm) (ih _ _ _ _ _ hh)
      · simp at hh

/-- Decomposition of a successful leftmost search: the start is at or
after the scan start and the match itself succeeds there. -/
theorem searchFrom_eq_some (t : List Char) (items : List RxItem) (start s e : Nat)
    (g : List (Nat × Nat)) (h : searchFrom t items start = some (s, e, g)) :
    start ≤ s ∧ matchTop t items s [] [] = some (e, g) := by
  unfold searchFrom at h
  obtain ⟨p, hp, hm⟩ := List.exists_of_findSome?_eq_some h
  have hps : start ≤ p := by
    rw [List.mem_range'] at hp
    obtain ⟨i, _, rfl⟩ := hp
    omega
  cases hmt : matchTop t items p [] [] with
  | none => rw [hmt] at hm; simp at hm
  | some r =>
    rw [hmt] at hm
    simp only [Option.map_some', Option.some.injEq, Prod.mk.injEq] at hm
    obtain ⟨rfl, h1, h2⟩ := hm
    refine ⟨hps, ?_⟩
    rw [hmt]
    cases r
    simp_all

/-- Every match reported by `finditerAux` starts at or after the scan
position. -/
theorem finditerAux_start_ge (t : List Char) (items : List RxItem) :
    ∀ (fuel pos : Nat) (m : Nat × Nat × List (Nat × Nat)),
      m ∈ finditerAux t items fuel pos → pos ≤ m.1 := by
  intro fuel
  induction fuel with
  | zero => intro pos m h; simp [finditerAux] at h
  | succ fuel ih =>
    intro pos m h
    simp only [finditerAux] at h
    split at h
    · simp at h
    · rename_i s e g hs
      rcases List.mem_cons.mp h with rfl | h
      · exact (searchFrom_eq_some t items pos s e g hs).1
      · have h1 := ih _ _ h
        have h2 := (searchFrom_eq_some t items pos s e g hs).1
        simp only at h1
        omega

/-- The matches reported by `finditerAux` have strictly increasing start
positions. -/
theorem finditerAux_pairwise (t : List Char) (items : List RxItem) :
    ∀ (fuel pos : Nat),
      (finditerAux t items fuel pos).Pairwise (fun a b => a.1 < b.1) := by
  intro fuel
  induction fuel with
  | zero => intro pos; simp [finditerAux]
  | succ fuel ih =>
    intro pos
    simp only [finditerAux]
    split
    · exact List.Pairwise.nil
    · rename_i s e g hs
      refine List.Pairwise.cons ?_ (ih _)
      intro b hb
      have h1 := finditerAux_start_ge t items fuel (max e (s + 1)) b hb
      omega

/-! ### Lemmas about the multi-section loop -/

/-- Every document returned by the multi-section loop comes from one of
its matches. -/
theorem multiGo_mem (path raw : String) :
    ∀ (ms : List (Nat × Nat × List (Nat × Nat))) (ds : List MeetingDoc),
      multiGo path raw ms = .ok ds →
      ∀ d ∈ ds, ∃ m ∈ ms, buildSection path raw m = .ok (some d) := by
  intro ms
  induction ms with
  | nil =>
    intro ds h d hd
    simp only [multiGo, PResult.ok.injEq] at h
    subst h
    simp at hd
  | cons m ms ih =>
    intro ds h d hd
    simp only [multiGo] at h
    split at h
    · simp at h
    · rename_i hb
      have ⟨m', hm', hb'⟩ := ih _ h d hd
      exact ⟨m', List.mem_cons_of_mem _ hm', hb'⟩
    · rename_i d0 hb
      split at h
      · simp at h
      · rename_i ds' hgo
        simp only [PResult.ok.injEq] at h
        subst h
        rcases List.mem_cons.mp hd with rfl | hd'
        · exact ⟨m, List.mem_cons_self _ _, hb⟩
        · have ⟨m', hm', hb'⟩ := ih _ hgo d hd'
          exact ⟨m', List.mem_cons_of_mem _ hm', hb'⟩

/-- On success the multi-section loop returns exactly the order-preserving
selection of its matches' records. -/
theorem multiGo_filterMap (path raw : String) :
    ∀ (ms : List (Nat × Nat × List (Nat × Nat))) (ds : List MeetingDoc),
      multiGo path raw ms = .ok ds →
      ds = ms.filterMap fun m =>
        match buildSection path raw m with
        | .ok r => r
        | .error _ => none := by
  intro ms
  induction ms with
  | nil =>
    intro ds h
    simp only [multiGo, PResult.ok.injEq] at h
    simp [← h]
  | cons m ms ih =>
    intro ds h
    simp only [multiGo] at h
    split at h
    · simp at h
    · rename_i hb
      rw [List.filterMap_cons, hb]
      exact ih _ h
    · rename_i d0 hb
      split at h
      · simp at h
      · rename_i ds' hgo
        simp only [PResult.ok.injEq] at h
        subst h
        rw [List.filterMap_cons, hb]
        rw [← ih _ hgo]
  

/-- The multi-section loop emits at most one record per match. -/
theorem multiGo_length (path raw : String) :
    ∀ (ms : List (Nat × Nat × List (Nat × Nat))) (ds : List MeetingDoc),
      multiGo path raw ms = .ok ds → ds.length ≤ ms.length := by
  intro ms
  induction ms with
  | nil =>
    intro ds h
    simp only [multiGo, PResult.ok.injEq] at h
    simp [← h]
  | cons m ms ih =>
    intro ds h
    simp only [multiGo] at h
    split at h
    · simp at h
    · have := ih _ h
      simp only [List.length_cons]
      omega
    · split at h
      · simp at h
      · rename_i ds' hgo
        simp only [PResult.ok.injEq] at h
        subst h
        have := ih _ hgo
        simp only [List.length_cons]
        omega

/-- Shape of a record kept by the multi-section loop: its provenance
fields come from the path, its id hashes `path:title:date`, and the
section that produced it had non-empty notes or a non-empty (successful)
action-item extraction. -/
theorem buildSection_some (path raw : String) (m : Nat × Nat × List (Nat × Nat))
    (d : MeetingDoc) (h : buildSection path raw m = .ok (some d)) :
    d.path = path ∧ d.source = pyBasename path ∧
    d.topic = pyBasename (pyDirname path) ∧
    d.file_id = md5hex (path ++ ":" ++ d.title ++ ":" ++ d.date) ∧
    d.title = sectionTitleOf raw m ∧
    (extractBulletedBlock (sectionBodyOf raw m) ["Notes", "Topics"] ≠ "" ∨
      extractActionItems (sectionBodyOf raw m) ≠ .ok []) := by
  simp only [buildSection] at h
  split at h
  · simp at h
  · rename_i araw hA
    split at h
    · simp at h
    · rename_i actions hAct
      split at h
      · simp at h
      · rename_i d0 hD0
        split at h
        · simp at h
        · rename_i date hDate
          split at h
          · simp at h
          · rename_i hguard
            simp only [PResult.ok.injEq, Option.some.injEq] at h
            subst h
            refine ⟨rfl, rfl, rfl, rfl, rfl, ?_⟩
            by_cases hn : extractBulletedBlock (sectionBodyOf raw m) ["Notes", "Topics"] = ""
            · right
              intro hcontra
              rw [hAct] at hcontra
              simp only [PResult.ok.injEq] at hcontra
              exact hguard ⟨hn, hcontra⟩
            · left; exact hn

/-- `_safe_extract_field` cannot raise when every pattern in its list has
a capture group. -/
theorem extractFieldPR_ok (text : String) :
    ∀ (pats : List RPattern), (∀ p ∈ pats, p.groupCount ≠ 0) →
      ∃ s, extractFieldPR text pats = .ok s := by
  intro pats
  induction pats with
  | nil => intro _; exact ⟨"", rfl⟩
  | cons p rest ih =>
    intro hg
    simp only [extractFieldPR]
    split
    · rename_i m hm
      rw [if_neg (hg p (List.mem_cons_self _ _))]
      exact ⟨cap1 text m, rfl⟩
    · exact ih fun q hq => hg q (List.mem_cons_of_mem _ hq)

/-! ### Claim C4: emission invariant -/

set_option maxRecDepth 10000 in
/-- Counterexample to claim C4 as stated: `* [x] |` contains no section
heading, so the parser runs in single-section fallback mode, yet no
record is emitted — the candidate normalizer raises `IndexError` on a
checkbox bullet whose content is a lone delimiter. -/
theorem c4_counterexample_single_mode_raises :
    hasSectionHeading "* [x] |" = false ∧
    parseText "a/b.md" "* [x] |" none = .error "list index out of range" := by
  decide

/-- Claim C4 (amended: provided the parse completes without raising): in
multi-section mode every emitted record comes from a section whose notes
block is non-empty or whose action-item extraction yields a non-empty
list, and in single-section fallback mode exactly one record is emitted,
whose rendered content uses the stripped raw body as its notes part
whenever no notes were extracted. -/
theorem c4_emission_invariant (path raw : String) (mt : Option String)
    (docs : List MeetingDoc) (h : parseText path raw mt = .ok docs) :
    (hasSectionHeading raw = true →
      ∀ d ∈ docs, ∃ m ∈ sectionMatches raw,
        buildSection path raw m = .ok (some d) ∧
        (extractBulletedBlock (sectionBodyOf raw m) ["Notes", "Topics"] ≠ "" ∨
          extractActionItems (sectionBodyOf raw m) ≠ .ok [])) ∧
    (hasSectionHeading raw = false →
      ∃ d, docs = [d] ∧
        d.content = renderContent d.title d.attendees
          (if singleNotes raw = "" then pyStrip raw else singleNotes raw)) := by
  constructor
  · intro hs d hd
    rw [parseText, hs] at h
    simp only [if_true] at h
    obtain ⟨m, hm, hb⟩ := multiGo_mem path raw _ _ h d hd
    exact ⟨m, hm, hb, (buildSection_some path raw m d hb).2.2.2.2.2⟩
  · intro hs
    rw [parseText, hs] at h
    simp only [Bool.false_eq_true, if_false] at h
    simp only [singleDoc] at h
    split at h
    · simp at h
    · split at h
      · simp at h
      · split at h
        · simp at h
        · split at h
          · simp at h
          · split at h
            · simp at h
            · simp only [PResult.ok.injEq] at h
              subst h
              exact ⟨_, rfl, rfl⟩

set_option maxRecDepth 10000 in
/-- Witness for C4 at a concrete single-mode input. -/
theorem c4_emission_invariant_witness :
    parseText "a/b.md" "hello" none =
      .ok [{ content := "Meeting Title: b\n\nAttendees:\n(none)\n\nNotes:\nhello",
             file_id := "md5:a/b.md", path := "a/b.md", source := "b.md",
             title := "b", date := "", attendees := [], topic := "a" }] ∧
    ((hasSectionHeading "hello" = true →
      ∀ d ∈ [({ content := "Meeting Title: b\n\nAttendees:\n(none)\n\nNotes:\nhello",
                file_id := "md5:a/b.md", path := "a/b.md", source := "b.md",
                title := "b", date := "", attendees := [], topic := "a" } : MeetingDoc)],
        ∃ m ∈ sectionMatches "hello",
          buildSection "a/b.md" "hello" m = .ok (some d) ∧
          (extractBulletedBlock (sectionBodyOf "hello" m) ["Notes", "Topics"] ≠ "" ∨
            extractActionItems (sectionBodyOf "hello" m) ≠ .ok [])) ∧
     (hasSectionHeading "hello" = false →
      ∃ d, [({ content := "Meeting Title: b\n\nAttendees:\n(none)\n\nNotes:\nhello",
               file_id := "md5:a/b.md", path := "a/b.md", source := "b.md",
               title := "b", date := "", attendees := [], topic := "a" } : MeetingDoc)] = [d] ∧
        d.content = renderContent d.title d.attendees
          (if singleNotes "hello" = "" then pyStrip "hello" else singleNotes "hello"))) :=
  ⟨by decide, c4_emission_invariant "a/b.md" "hello" none _ (by decide)⟩

/-! ### Claim C5: no-heading title fallback -/

set_option maxRecDepth 40000 in
/-- Counterexample to claim C5 as stated: a bold `**Title**:` field is
never consulted by the code's fallback chain (`_safe_extract_field` is
called with the `^#\s*(.+)` and `##\s*Meeting Title\s*:?` patterns only),
so the title falls back to the file's base name instead of the labeled
value `Launch Plan` the claim requires. -/
theorem c5_counterexample_bold_title_ignored :
    hasSectionHeading "**Title**: Launch Plan\nbody text" = false ∧
    parseText "mtg/plan.md" "**Title**: Launch Plan\nbody text" (some "5.0") =
      .ok [{ content := "Meeting Title: plan\n\nAttendees:\n(none)\n\nNotes:\n**Title**: Launch Plan\nbody text",
             file_id := "md5:mtg/plan.md:5.0", path := "mtg/plan.md",
             source := "plan.md", title := "plan", date := "",
             attendees := [], topic := "mtg" }] ∧
    ("plan" = "Launch Plan") = False := by
  decide

/-- Claim C5 (amended): when the splitter finds no section heading, the
parse does not raise in the title step (first pattern matches, or the
groupless second pattern does not) and action-item extraction succeeds,
exactly one record is emitted and its title is the stripped capture of
the first line starting with `#` (any heading depth) when that capture is
non-empty, else the file's base name without extension; no bold
`**Title**:` field is consulted. -/
theorem c5_single_mode_title (path raw : String) (mt : Option String)
    (hs : hasSectionHeading raw = false)
    (hp : reSearch titlePat1 raw ≠ none ∨ reSearch titlePat2 raw = none)
    (ha : ∃ as, extractActionItems raw = .ok as) :
    ∃ d, parseText path raw mt = .ok [d] ∧
      d.title = (match reSearch titlePat1 raw with
        | some m => if cap1 raw m = "" then stripExt (pyBasename path) else cap1 raw m
        | none => stripExt (pyBasename path)) := by
  have htitle : extractFieldPR raw [titlePat1, titlePat2] =
      .ok (match reSearch titlePat1 raw with
        | some m => cap1 raw m
        | none => "") := by
    cases hr1 : reSearch titlePat1 raw with
    | some m =>
      simp only [extractFieldPR, hr1]
      rw [if_neg (by decide)]
    | none =>
      have hr2 : reSearch titlePat2 raw = none := by
        rcases hp with hp | hp
        · exact absurd hr1 hp
        · exact hp
      simp only [extractFieldPR, hr1, hr2]
  obtain ⟨d0, hd0⟩ := extractFieldPR_ok raw [boldDatePat, bareDatePat, isoDatePat]
    (by intro p hp'
        simp only [List.mem_cons, List.not_mem_nil, or_false] at hp'
        rcases hp' with rfl | rfl | rfl <;> decide)
  have hdate : ∃ date, (if d0 = "" then extractFieldPR path [isoDatePat] else .ok d0) =
      .ok date := by
    split
    · exact extractFieldPR_ok path [isoDatePat]
        (by intro p hp'
            simp only [List.mem_cons, List.not_mem_nil, or_false] at hp'
            rcases hp' with rfl
            decide)
    · exact ⟨d0, rfl⟩
  obtain ⟨date, hdate⟩ := hdate
  obtain ⟨araw, haraw⟩ := extractFieldPR_ok raw [boldAttendeesPat, bareAttendeesPat]
    (by intro p hp'
        simp only [List.mem_cons, List.not_mem_nil, or_false] at hp'
        rcases hp' with rfl | rfl <;> decide)
  obtain ⟨as, has⟩ := ha
  rw [parseText, hs]
  simp only [Bool.false_eq_true, if_false]
  simp only [singleDoc, htitle, hd0, hdate, haraw, has]
  refine ⟨_, rfl, ?_⟩
  cases hr1 : reSearch titlePat1 raw with
  | none => simp [hr1]
  | some m => simp [hr1]

/-! ### Claim C10: record order follows section order -/

/-- Claim C10: the multi-section matches occur in strictly increasing
positional order, and on success the emitted records are exactly the
order-preserving selection of those matches (dropped sections excepted),
so record order is a deterministic function of section order. -/
theorem c10_record_order (path raw : String) (mt : Option String)
    (docs : List MeetingDoc) (hs : hasSectionHeading raw = true)
    (h : parseText path raw mt = .ok docs) :
    (sectionMatches raw).Pairwise (fun a b => a.1 < b.1) ∧
    docs = (sectionMatches raw).filterMap fun m =>
      match buildSection path raw m with
      | .ok r => r
      | .error _ => none := by
  constructor
  · simp only [sectionMatches, finditerStr]
    exact finditerAux_pairwise raw.data sectionPat.items _ 0
  · rw [parseText, hs] at h
    simp only [if_true] at h
    exact multiGo_filterMap path raw _ _ h

set_option maxRecDepth 10000 in
/-- Witness for C10 at a concrete two-line sectioned input. -/
theorem c10_record_order_witness :
    hasSectionHeading "## W\nx\n- [ ] do" = true ∧
    ((sectionMatches "## W\nx\n- [ ] do").Pairwise (fun a b => a.1 < b.1) ∧
      [({ content := "Meeting Title: W\nx\n\nAttendees:\n(none)\n\nNotes:\n",
          file_id := "md5:dir/w.md:W\nx:", path := "dir/w.md", source := "w.md",
          title := "W\nx", date := "", attendees := [], topic := "dir" } : MeetingDoc)] =
        (sectionMatches "## W\nx\n- [ ] do").filterMap fun m =>
          match buildSection "dir/w.md" "## W\nx\n- [ ] do" m with
          | .ok r => r
          | .error _ => none) :=
  ⟨by decide, c10_record_order "dir/w.md" "## W\nx\n- [ ] do" none _ (by decide) (by decide)⟩

/-! ### The section pattern matches at most once

The DOTALL title group is greedy, so a successful section match consumes
the text's last newline; after it no further match can start.  The
following decomposition of `sectionPat.items` names each suffix of the
pattern so the backtracking can be analyzed step by step. -/

/-- The terminal lookahead `(?=^##\s+|\Z)` of the section pattern. -/
def secLook : List RxItem :=
  [.look [.alt [[.bol, .lit ['#', '#'] false, .rep pyWs 1 none true], [.eos]]]]

/-- The body group `(?P<body>.*?)` with the terminal lookahead. -/
def secBody : List RxItem :=
  .gopen :: .atom (.rep anyChar 0 none false) :: .gclose :: secLook

/-- The literal newline before the body. -/
def secNl : List RxItem := .atom (.lit ['\n'] false) :: secBody

/-- The `$` anchor before the newline. -/
def secEol : List RxItem := .atom .eol :: secNl

/-- The `\s*` between title and `$`. -/
def secWs2 : List RxItem := .atom (.rep pyWs 0 none true) :: secEol

/-- The continuation after the title repetition (closing the group). -/
def secCont : List RxItem := .gclose :: secWs2

/-- The title repetition `.+` (DOTALL) with its continuation. -/
def secTitle : List RxItem := .atom (.rep anyChar 1 none true) :: secCont

/-- The title group opening. -/
def secGo : List RxItem := .gopen :: secTitle

/-- The `\s+` after `##`. -/
def secWs1 : List RxItem := .atom (.rep pyWs 1 none true) :: secGo

/-- The `##` literal. -/
def secHash : List RxItem := .atom (.lit ['#', '#'] false) :: secWs1

/-- The section pattern is the `^` anchor followed by the named suffixes. -/
theorem sectionPat_items_eq : sectionPat.items = .atom .bol :: secHash := rfl

/-- Matching the one-character newline literal inspects exactly the
character at the position. -/
theorem litMatchesAt_nl (t : List Char) (pos : Nat) :
    litMatchesAt t ['\n'] false pos = true ↔ t[pos]? = some '\n' := by
  simp only [litMatchesAt]
  cases h : t[pos]? with
  | none => simp
  | some d =>
    simp only [litMatchesAt, Bool.and_true, if_false]
    constructor
    · intro hd
      have : '\n' = d := by simpa using hd
      rw [← this]
    · intro hd
      simp only [Option.some.injEq] at hd
      simp [hd]

/-- The DOTALL dot accepts every character. -/
theorem countLeading_anyChar (l : List Char) : countLeading anyChar l = l.length := by
  induction l with
  | nil => rfl
  | cons d ds ih => simp [countLeading, anyChar, ih]

/-- The repetition bound of the DOTALL `.` quantifier is all remaining
text. -/
theorem repBound_anyChar (t : List Char) (pos : Nat) :
    repBound t anyChar none pos = t.length - pos := by
  simp [repBound, countLeading_anyChar]

/-- Membership in the tried repetition counts. -/
theorem mem_repCounts (k lo m : Nat) (g : Bool) :
    k ∈ repCounts lo m g ↔ lo ≤ k ∧ k ≤ m := by
  have hbase : k ∈ List.range' lo (m + 1 - lo) ↔ lo ≤ k ∧ k ≤ m := by
    rw [List.mem_range']
    constructor
    · rintro ⟨i, hi, rfl⟩; omega
    · intro h; exact ⟨k - lo, by omega, by omega⟩
  unfold repCounts
  cases g
  · simpa using hbase
  · simpa using hbase

/-- `range'` is sorted. -/
theorem pairwise_le_range' : ∀ (n s : Nat), (List.range' s n).Pairwise (· ≤ ·) := by
  intro n
  induction n with
  | zero => intro s; simp
  | succ n ih =>
    intro s
    rw [List.range'_succ]
    refine List.Pairwise.cons ?_ (ih (s + 1))
    intro y hy
    rw [List.mem_range'] at hy
    obtain ⟨i, _, rfl⟩ := hy
    omega

/-- The greedy repetition counts are tried in descending order. -/
theorem pairwise_ge_repCounts (lo m : Nat) :
    (repCounts lo m true).Pairwise (fun a b => b ≤ a) := by
  unfold repCounts
  simp only [if_true]
  exact List.pairwise_reverse.mpr (pairwise_le_range' _ _)

/-- No newline at or after `q`: the newline literal (and everything after
it in the section pattern) cannot match at any position `p ≥ q`. -/
theorem secNl_none (t : List Char) (q : Nat)
    (hnn : ∀ i, q ≤ i → t[i]? ≠ some '\n') :
    ∀ (p : Nat) (stk : List Nat) (done : List (Nat × Nat)), q ≤ p →
      matchTop t secNl p stk done = none := by
  intro p stk done hp
  simp only [secNl, matchTop]
  split
  · rename_i hlit
    exact absurd ((litMatchesAt_nl t p).mp hlit) (hnn p hp)
  · rfl

/-- No newline at or after `q`: the `$` anchor suffix fails at `p ≥ q`. -/
theorem secEol_none (t : List Char) (q : Nat)
    (hnn : ∀ i, q ≤ i → t[i]? ≠ some '\n') :
    ∀ (p : Nat) (stk : List Nat) (done : List (Nat × Nat)), q ≤ p →
      matchTop t secEol p stk done = none := by
  intro p stk done hp
  simp only [secEol, matchTop]
  split
  · exact secNl_none t q hnn p stk done hp
  · rfl

/-- No newline at or after `q`: the `\s*$` suffix fails at `p ≥ q`. -/
theorem secWs2_none (t : List Char) (q : Nat)
    (hnn : ∀ i, q ≤ i → t[i]? ≠ some '\n') :
    ∀ (p : Nat) (stk : List Nat) (done : List (Nat × Nat)), q ≤ p →
      matchTop t secWs2 p stk done = none := by
  intro p stk done hp
  simp only [secWs2, matchTop]
  refine List.findSome?_eq_none_iff.mpr ?_
  intro k _
  exact secEol_none t q hnn (p + k) stk done (by omega)

/-- No newline at or after `q`: the continuation after the title fails at
`p ≥ q`. -/
theorem secCont_none (t : List Char) (q : Nat)
    (hnn : ∀ i, q ≤ i → t[i]? ≠ some '\n') :
    ∀ (p : Nat) (stk : List Nat) (done : List (Nat × Nat)), q ≤ p →
      matchTop t secCont p stk done = none := by
  intro p stk done hp
  simp only [secCont, matchTop]
  cases stk with
  | nil => rfl
  | cons s stk' => exact secWs2_none t q hnn p stk' (done ++ [(s, p)]) hp

/-- No newline at or after `q`: the title repetition suffix fails at
`p ≥ q`. -/
theorem secTitle_none (t : List Char) (q : Nat)
    (hnn : ∀ i, q ≤ i → t[i]? ≠ some '\n') :
    ∀ (p : Nat) (stk : List Nat) (done : List (Nat × Nat)), q ≤ p →
      matchTop t secTitle p stk done = none := by
  intro p stk done hp
  simp only [secTitle, matchTop]
  refine List.findSome?_eq_none_iff.mpr ?_
  intro k _
  exact secCont_none t q hnn (p + k) stk done (by omega)

/-- No newline at or after `q`: the section pattern from the title group
fails at `p ≥ q`. -/
theorem secGo_none (t : List Char) (q : Nat)
    (hnn : ∀ i, q ≤ i → t[i]? ≠ some '\n') :
    ∀ (p : Nat) (stk : List Nat) (done : List (Nat × Nat)), q ≤ p →
      matchTop t secGo p stk done = none := by
  intro p stk done hp
  simp only [secGo, matchTop]
  exact secTitle_none t q hnn p (p :: stk) done hp

/-- No newline at or after `q`: the section pattern from `\s+` fails at
`p ≥ q`. -/
theorem secWs1_none (t : List Char) (q : Nat)
    (hnn : ∀ i, q ≤ i → t[i]? ≠ some '\n') :
    ∀ (p : Nat) (stk : List Nat) (done : List (Nat × Nat)), q ≤ p →
      matchTop t secWs1 p stk done = none := by
  intro p stk done hp
  simp only [secWs1, matchTop]
  refine List.findSome?_eq_none_iff.mpr ?_
  intro k _
  exact secGo_none t q hnn (p + k) stk done (by omega)

/-- No newline at or after `q`: the section pattern from `##` fails at
`p ≥ q`. -/
theorem secHash_none (t : List Char) (q : Nat)
    (hnn : ∀ i, q ≤ i → t[i]? ≠ some '\n') :
    ∀ (p : Nat) (stk : List Nat) (done : List (Nat × Nat)), q ≤ p →
      matchTop t secHash p stk done = none := by
  intro p stk done hp
  simp only [secHash, matchTop]
  split
  · exact secWs1_none t q hnn (p + 2) stk done (by omega)
  · rfl

/-- No newline at or after `q`: the whole section pattern fails at
`p ≥ q`. -/
theorem section_match_none (t : List Char) (q : Nat)
    (hnn : ∀ i, q ≤ i → t[i]? ≠ some '\n') :
    ∀ (p : Nat) (stk : List Nat) (done : List (Nat × Nat)), q ≤ p →
      matchTop t sectionPat.items p stk done = none := by
  intro p stk done hp
  rw [sectionPat_items_eq]
  simp only [matchTop]
  split
  · exact secHash_none t q hnn p stk done hp
  · rfl

/-- No newline at or after the scan start means no further section match
at all. -/
theorem searchFrom_section_none (t : List Char) (start : Nat)
    (hnn : ∀ i, start ≤ i → t[i]? ≠ some '\n') :
    searchFrom t sectionPat.items start = none := by
  unfold searchFrom
  refine List.findSome?_eq_none_iff.mpr ?_
  intro p hp
  have hsp : start ≤ p := by
    rw [List.mem_range'] at hp
    obtain ⟨i, _, rfl⟩ := hp
    omega
  rw [section_match_none t start hnn p [] [] hsp]
  rfl

/-- The body group with its terminal lookahead always succeeds from any
in-range position: the lazy `.*?` can extend to the end of the text,
where the `\Z` alternative of the lookahead holds. -/
theorem secBody_some (t : List Char) (p : Nat) (stk : List Nat)
    (done : List (Nat × Nat)) (hp : p ≤ t.length) :
    ∃ r, matchTop t secBody p stk done = some r := by
  simp only [secBody, matchTop]
  rw [← Option.isSome_iff_exists]
  rw [List.findSome?_isSome_iff]
  refine ⟨t.length - p, ?_, ?_⟩
  · rw [mem_repCounts]
    constructor
    · omega
    · rw [repBound_anyChar]
  · have hpe : p + (t.length - p) = t.length := by omega
    rw [hpe]
    have hb1 : matchAtoms t [.bol, .lit ['#', '#'] false, .rep pyWs 1 none true]
        t.length = none := by
      simp only [matchAtoms]
      split
      · have hlit : litMatchesAt t ['#', '#'] false t.length = false := by
          simp only [litMatchesAt]
          have : t[t.length]? = none := by
            rw [List.getElem?_eq_none_iff]
          rw [this]
        rw [hlit]
        rfl
      · rfl
    have hb2 : matchAtoms t [RxAtom.eos] t.length = some t.length := by
      simp [matchAtoms]
    simp only [matchBranch, List.findSome?_cons, hb1, hb2]
    simp [matchTop]

/-- Forward analysis of the continuation after the title: a success
consumes a newline at some whitespace offset `j` and ends past it. -/
theorem secCont_some_nl (t : List Char) (v : Nat) (stk : List Nat)
    (done : List (Nat × Nat)) (e : Nat) (g : List (Nat × Nat))
    (h : matchTop t secCont v stk done = some (e, g)) :
    ∃ j, t[v + j]? = some '\n' ∧ v + j + 1 ≤ e := by
  simp only [secCont, matchTop] at h
  cases stk with
  | nil => simp at h
  | cons s0 stk' =>
    simp only [secWs2, matchTop] at h
    obtain ⟨j, hj, hh⟩ := List.exists_of_findSome?_eq_some h
    split at hh
    · split at hh
      · rename_i hle hlit
        refine ⟨j, (litMatchesAt_nl t (v + j)).mp hlit, ?_⟩
        obtain ⟨k1, hk1, inner⟩ := List.exists_of_findSome?_eq_some hh
        split at inner
        · rename_i val hbr
          simp only [Option.some.injEq, Prod.mk.injEq] at inner
          obtain ⟨he, -⟩ := inner
          simp only [List.length_cons, List.length_nil] at he
          omega
        · simp at inner
      · simp at hh
    · simp at hh

/-- Constructive analysis: at any newline position, the continuation
after the title succeeds (with zero whitespace consumed, the `$` anchor
holds, the newline matches, and the body group always succeeds). -/
theorem secCont_some_of_nl (t : List Char) (w : Nat) (s0 : Nat) (stk' : List Nat)
    (done : List (Nat × Nat)) (hw : t[w]? = some '\n') :
    ∃ r, matchTop t secCont w (s0 :: stk') done = some r := by
  have hwlen : w < t.length := by
    by_contra hcon
    rw [List.getElem?_eq_none_iff.mpr (by omega)] at hw
    simp at hw
  obtain ⟨r, hr⟩ := secBody_some t (w + 1) stk' (done ++ [(s0, w)]) (by omega)
  have hle : atLineEnd t w = true := by simp [atLineEnd, hw]
  have hlit : litMatchesAt t ['\n'] false w = true := (litMatchesAt_nl t w).mpr hw
  simp only [secCont, matchTop]
  rw [← Option.isSome_iff_exists, List.findSome?_isSome_iff]
  refine ⟨0, ?_, ?_⟩
  · rw [mem_repCounts]
    omega
  · simp only [Nat.add_zero, hle, hlit, if_true]
    have hfold : (matchTop t secBody (w + 1) stk' (done ++ [(s0, w)])).isSome = true := by
      rw [hr]
      rfl
    exact hfold

/-- A successful section match consumes the last newline of the text: no
newline exists at or after the match's end.  The greedy DOTALL title
repetition tries larger counts first, and the continuation succeeds at
any newline, so the first (largest) successful count reaches the last
newline. -/
theorem matchTop_section_localizes (t : List Char) (p : Nat) (stk : List Nat)
    (done : List (Nat × Nat)) (e : Nat) (g : List (Nat × Nat))
    (h : matchTop t sectionPat.items p stk done = some (e, g)) :
    ∀ i, e ≤ i → t[i]? ≠ some '\n' := by
  rw [sectionPat_items_eq] at h
  rw [show matchTop t (.atom .bol :: secHash) p stk done =
      (if atLineStart t p = true then matchTop t secHash p stk done else none) from rfl] at h
  split at h
  · rw [show matchTop t secHash p stk done =
        (if litMatchesAt t ['#', '#'] false p = true then
          matchTop t secWs1 (p + 2) stk done else none) from rfl] at h
    split at h
    · rw [show matchTop t secWs1 (p + 2) stk done =
          (repCounts 1 (repBound t pyWs none (p + 2)) true).findSome?
            (fun k => matchTop t secGo (p + 2 + k) stk done) from rfl] at h
      obtain ⟨k0, hk0, h⟩ := List.exists_of_findSome?_eq_some h
      rw [show matchTop t secGo (p + 2 + k0) stk done =
          matchTop t secTitle (p + 2 + k0) ((p + 2 + k0) :: stk) done from rfl] at h
      rw [show matchTop t secTitle (p + 2 + k0) ((p + 2 + k0) :: stk) done =
          (repCounts 1 (repBound t anyChar none (p + 2 + k0)) true).findSome?
            (fun k => matchTop t secCont (p + 2 + k0 + k)
              ((p + 2 + k0) :: stk) done) from rfl] at h
      rw [List.findSome?_eq_some_iff] at h
      obtain ⟨l1, k, l2, hKs, hfk, hl1⟩ := h
      obtain ⟨j, hnlj, hje⟩ :=
        secCont_some_nl t (p + 2 + k0 + k) ((p + 2 + k0) :: stk) done e g hfk
      intro i hie hni
      have hkmem : k ∈ repCounts 1 (repBound t anyChar none (p + 2 + k0)) true := by
        rw [hKs]
        exact List.mem_append.mpr (Or.inr (List.mem_cons_self _ _))
      have hk1 : 1 ≤ k := ((mem_repCounts _ _ _ _).mp hkmem).1
      have hilen : i < t.length := by
        by_contra hcon
        rw [List.getElem?_eq_none_iff.mpr (by omega)] at hni
        simp at hni
      have hiu : p + 2 + k0 + (i - (p + 2 + k0)) = i := by omega
      have hk'mem : (i - (p + 2 + k0)) ∈
          repCounts 1 (repBound t anyChar none (p + 2 + k0)) true := by
        rw [mem_repCounts, repBound_anyChar]
        omega
      have hfk' : ∃ r, matchTop t secCont (p + 2 + k0 + (i - (p + 2 + k0)))
          ((p + 2 + k0) :: stk) done = some r := by
        refine secCont_some_of_nl t _ _ _ _ ?_
        rw [hiu]
        exact hni
      have hk'gt : k < i - (p + 2 + k0) := by omega
      have hsorted := pairwise_ge_repCounts 1 (repBound t anyChar none (p + 2 + k0))
      rw [hKs, List.pairwise_append] at hsorted
      obtain ⟨-, hk2, -⟩ := hsorted
      have hk'in : (i - (p + 2 + k0)) ∈ l1 ∨ (i - (p + 2 + k0)) ∈ k :: l2 := by
        rw [hKs] at hk'mem
        exact List.mem_append.mp hk'mem
      rcases hk'in with hin1 | hin2
      · obtain ⟨r, hr⟩ := hfk'
        rw [hl1 _ hin1] at hr
        simp at hr
      · rcases List.mem_cons.mp hin2 with heq | hin2'
        · omega
        · have hle := (List.pairwise_cons.mp hk2).1 _ hin2'
          omega
    · simp at h
  · simp at h

/-- After a successful section match nothing more matches: the iterator
yields nothing from any position at or past the end of a match. -/
theorem finditerAux_section_nil (t : List Char) (e : Nat)
    (hnn : ∀ i, e ≤ i → t[i]? ≠ some '\n') :
    ∀ (fuel pos : Nat), e ≤ pos →
      finditerAux t sectionPat.items fuel pos = [] := by
  intro fuel pos hpos
  cases fuel with
  | zero => rfl
  | succ fuel =>
    simp only [finditerAux]
    rw [searchFrom_section_none t pos (fun i hi => hnn i (by omega))]

/-- The multi-section pattern matches at most once in any text. -/
theorem sectionMatches_le_one (raw : String) : (sectionMatches raw).length ≤ 1 := by
  simp only [sectionMatches, finditerStr]
  cases hn : raw.data.length + 1 with
  | zero => simp [finditerAux]
  | succ fuel =>
    simp only [finditerAux]
    split
    · simp
    · rename_i s e g hsf
      obtain ⟨-, hm⟩ := searchFrom_eq_some raw.data sectionPat.items 0 s e g hsf
      have hnn := matchTop_section_localizes raw.data s [] [] e g hm
      rw [finditerAux_section_nil raw.data e hnn fuel (max e (s + 1)) (by omega)]
      simp

/-- Any relation holds pairwise on a list of at most one element. -/
theorem pairwise_of_length_le_one {α : Type} {R : α → α → Prop} :
    ∀ (l : List α), l.length ≤ 1 → l.Pairwise R := by
  intro l hl
  match l with
  | [] => exact List.Pairwise.nil
  | [a] => exact List.pairwise_singleton R a
  | a :: b :: l' => simp at hl

/-! ### Claim C8: provenance and distinctness of multi-section records -/

/-- Claim C8: in multi-section mode all emitted records carry the same
path, source basename and topic; each record's `file_id` hashes the
source path plus that record's title and date, and the result does not
depend on the modification time; and the emitted records have pairwise
distinct `file_id`s and pairwise distinct titles (at most one record can
be emitted, so distinctness holds). -/
theorem c8_provenance_and_distinctness (path raw : String) (mt : Option String)
    (docs : List MeetingDoc) (hs : hasSectionHeading raw = true)
    (h : parseText path raw mt = .ok docs) :
    (∀ d ∈ docs, d.path = path ∧ d.source = pyBasename path ∧
      d.topic = pyBasename (pyDirname path) ∧
      d.file_id = md5hex (path ++ ":" ++ d.title ++ ":" ++ d.date)) ∧
    (∀ mt', parseText path raw mt' = .ok docs) ∧
    docs.Pairwise (fun a b => a.file_id ≠ b.file_id) ∧
    docs.Pairwise (fun a b => a.title ≠ b.title) := by
  rw [parseText, hs] at h
  simp only [if_true] at h
  have hlen : docs.length ≤ 1 :=
    Nat.le_trans (multiGo_length path raw _ _ h) (sectionMatches_le_one raw)
  refine ⟨?_, ?_, ?_, ?_⟩
  · intro d hd
    obtain ⟨m, -, hb⟩ := multiGo_mem path raw _ _ h d hd
    obtain ⟨h1, h2, h3, h4, -, -⟩ := buildSection_some path raw m d hb
    exact ⟨h1, h2, h3, h4⟩
  · intro mt'
    rw [parseText, hs]
    simp only [if_true]
    exact h
  · exact pairwise_of_length_le_one docs hlen
  · exact pairwise_of_length_le_one docs hlen

/-- The record the parser emits for the C8 witness input. -/
def c8WitnessDoc : MeetingDoc :=
  { content := "Meeting Title: V\ny\n\nAttendees:\n(none)\n\nNotes:\n",
    file_id := "md5:q/v.md:V\ny:", path := "q/v.md", source := "v.md",
    title := "V\ny", date := "", attendees := [], topic := "q" }

set_option maxRecDepth 10000 in
/-- Witness instantiating C8's hypotheses on a concrete input. -/
theorem c8_provenance_and_distinctness_witness :
    hasSectionHeading "## V\ny\n- [x] go" = true ∧
    ((∀ d ∈ [c8WitnessDoc],
      d.path = "q/v.md" ∧ d.source = pyBasename "q/v.md" ∧
      d.topic = pyBasename (pyDirname "q/v.md") ∧
      d.file_id = md5hex ("q/v.md" ++ ":" ++ d.title ++ ":" ++ d.date)) ∧
    (∀ mt', parseText "q/v.md" "## V\ny\n- [x] go" mt' = .ok [c8WitnessDoc]) ∧
    List.Pairwise (fun a b => a.file_id ≠ b.file_id) [c8WitnessDoc] ∧
    List.Pairwise (fun a b => a.title ≠ b.title) [c8WitnessDoc]) :=
  ⟨by decide,
   c8_provenance_and_distinctness "q/v.md" "## V\ny\n- [x] go" (some "7.5") [c8WitnessDoc]
     (by decide) (by decide)⟩

set_option maxRecDepth 40000 in
/-- Witness instantiating C5's hypotheses on a concrete input. -/
theorem c5_single_mode_title_witness :
    hasSectionHeading "# Weekly Sync\nagenda" = false ∧
    (∃ d, parseText "mtg/plan2.md" "# Weekly Sync\nagenda" none = .ok [d] ∧
      d.title = (match reSearch titlePat1 "# Weekly Sync\nagenda" with
        | some m =>
          if cap1 "# Weekly Sync\nagenda" m = "" then
            stripExt (pyBasename "mtg/plan2.md")
          else cap1 "# Weekly Sync\nagenda" m
        | none => stripExt (pyBasename "mtg/plan2.md"))) :=
  ⟨by decide,
   c5_single_mode_title "mtg/plan2.md" "# Weekly Sync\nagenda" none (by decide)
     (Or.inl (by decide)) ⟨[], by decide⟩⟩
